import Mathlib

/-!
Shallow embedding of `src/manifest_generator.py` (a Scoop manifest
generator): the release resolver, the Windows-asset classifier, the
streaming SHA-256 digest computer with its 100 MiB guard, and the
manifest builder, together with proofs of the specified properties.

Bytes are modelled as `Nat` values below 256, byte strings as
`List Nat`; machine words in SHA-256 are `Nat` reduced `% 2^32`.
Fallible code (`raise ValueError`) is modelled with `Except`.
-/

namespace ManifestGen

/-! ### SHA-256 (embedding of the `hashlib.sha256` collaborator)

`hashlib.sha256` accumulates the bytes passed to `update` and
`hexdigest` returns the SHA-256 digest of the accumulated bytes in
lowercase hexadecimal.  We implement SHA-256 (FIPS 180-4) over `Nat`
so the embedding is executable. -/

def M32 : Nat := 4294967296

def rotr32 (n x : Nat) : Nat := (x >>> n) ||| ((x <<< (32 - n)) % M32)

def bsig0 (x : Nat) : Nat := rotr32 2 x ^^^ rotr32 13 x ^^^ rotr32 22 x

def bsig1 (x : Nat) : Nat := rotr32 6 x ^^^ rotr32 11 x ^^^ rotr32 25 x

def ssig0 (x : Nat) : Nat := rotr32 7 x ^^^ rotr32 18 x ^^^ (x >>> 3)

def ssig1 (x : Nat) : Nat := rotr32 17 x ^^^ rotr32 19 x ^^^ (x >>> 10)

def K256 : List Nat :=
  [1116352408, 1899447441, 3049323471, 3921009573,
   961987163, 1508970993, 2453635748, 2870763221,
   3624381080, 310598401, 607225278, 1426881987,
   1925078388, 2162078206, 2614888103, 3248222580,
   3835390401, 4022224774, 264347078, 604807628,
   770255983, 1249150122, 1555081692, 1996064986,
   2554220882, 2821834349, 2952996808, 3210313671,
   3336571891, 3584528711, 113926993, 338241895,
   666307205, 773529912, 1294757372, 1396182291,
   1695183700, 1986661051, 2177026350, 2456956037,
   2730485921, 2820302411, 3259730800, 3345764771,
   3516065817, 3600352804, 4094571909, 275423344,
   430227734, 506948616, 659060556, 883997877,
   958139571, 1322822218, 1537002063, 1747873779,
   1955562222, 2024104815, 2227730452, 2361852424,
   2428436474, 2756734187, 3204031479, 3329325298]

structure Sha256State where
  a : Nat
  b : Nat
  c : Nat
  d : Nat
  e : Nat
  f : Nat
  g : Nat
  h : Nat

def initState : Sha256State :=
  ⟨1779033703, 3144134277, 1013904242, 2773480762,
   1359893119, 2600822924, 528734635, 1541459225⟩

/-- One step of the SHA-256 message-schedule extension. -/
def wNext (w : List Nat) : Nat :=
  let n := w.length
  (w.getD (n - 16) 0 + ssig0 (w.getD (n - 15) 0) + w.getD (n - 7) 0 + ssig1 (w.getD (n - 2) 0)) % M32

def extendW : Nat → List Nat → List Nat
  | 0, w => w
  | k + 1, w => extendW k (w ++ [wNext w])

def roundStep (s : Sha256State) (kw : Nat × Nat) : Sha256State :=
  let ch := (s.e &&& s.f) ^^^ ((s.e ^^^ 4294967295) &&& s.g)
  let maj := (s.a &&& s.b) ^^^ (s.a &&& s.c) ^^^ (s.b &&& s.c)
  let t1 := (s.h + bsig1 s.e + ch + kw.1 + kw.2) % M32
  let t2 := (bsig0 s.a + maj) % M32
  ⟨(t1 + t2) % M32, s.a, s.b, s.c, (s.d + t1) % M32, s.e, s.f, s.g⟩

def compressBlock (s : Sha256State) (block : List Nat) : Sha256State :=
  let w := extendW 48 block
  let r := (K256.zip w).foldl roundStep s
  ⟨(s.a + r.a) % M32, (s.b + r.b) % M32, (s.c + r.c) % M32, (s.d + r.d) % M32,
   (s.e + r.e) % M32, (s.f + r.f) % M32, (s.g + r.g) % M32, (s.h + r.h) % M32⟩

/-- Group a byte list into big-endian 32-bit words (the length is a
multiple of 4 after padding; a ragged tail would be dropped). -/
def bytesToWords : List Nat → List Nat
  | b0 :: b1 :: b2 :: b3 :: rest => (((b0 * 256 + b1) * 256 + b2) * 256 + b3) :: bytesToWords rest
  | _ => []

/-- Split a word list into 16-word blocks; the first argument is fuel
(the list length suffices). -/
def chunkWords : Nat → List Nat → List (List Nat)
  | 0, _ => []
  | _, [] => []
  | fuel + 1, l => l.take 16 :: chunkWords fuel (l.drop 16)

def bigEndian8 (n : Nat) : List Nat :=
  [(n >>> 56) % 256, (n >>> 48) % 256, (n >>> 40) % 256, (n >>> 32) % 256,
   (n >>> 24) % 256, (n >>> 16) % 256, (n >>> 8) % 256, n % 256]

/-- FIPS 180-4 padding: a 0x80 byte, zeros up to 56 mod 64, then the
bit length as a big-endian 64-bit integer. -/
def padMessage (msg : List Nat) : List Nat :=
  msg ++ 128 :: (List.replicate ((119 - msg.length % 64) % 64) 0 ++ bigEndian8 (msg.length * 8))

def sha256Words (msg : List Nat) : Sha256State :=
  let words := bytesToWords (padMessage msg)
  (chunkWords words.length words).foldl compressBlock initState

def hexDigit (n : Nat) : Char :=
  if n < 10 then Char.ofNat (48 + n) else Char.ofNat (87 + n)

def wordHex (w : Nat) : List Char :=
  [hexDigit ((w >>> 28) % 16), hexDigit ((w >>> 24) % 16), hexDigit ((w >>> 20) % 16),
   hexDigit ((w >>> 16) % 16), hexDigit ((w >>> 12) % 16), hexDigit ((w >>> 8) % 16),
   hexDigit ((w >>> 4) % 16), hexDigit (w % 16)]

/-- SHA-256 digest of a byte list, as a lowercase hexadecimal string
(the value `hashlib.sha256(data).hexdigest()` returns). -/
def sha256hex (msg : List Nat) : String :=
  let s := sha256Words msg
  String.mk (wordHex s.a ++ wordHex s.b ++ wordHex s.c ++ wordHex s.d ++
             wordHex s.e ++ wordHex s.f ++ wordHex s.g ++ wordHex s.h)

/-- Known test vector: SHA-256 of the empty input. -/
theorem sha256hex_empty_vector :
    sha256hex [] = "e3b0c44298fc1c149afbf4c8996fb92427ae41e4649b934ca495991b7852b855" := by
  decide

/-- Known test vector: SHA-256 of the ASCII bytes of "abc". -/
theorem sha256hex_abc_vector :
    sha256hex [97, 98, 99] = "ba7816bf8f01cfea414140de5dae2223b00361a396177a9cb410ff61f20015ad" := by
  decide

/-! ### String utilities (embedding of the Python string operations)

The classifier regexes (`re.search`) are alternations of literal
tokens, so they reduce to substring containment on the lowercased
name; `str.endswith`, `str.lower`, `str.lstrip('v')` and
`repo.split('/')[-1]` are embedded directly on the character lists. -/

def prefixMatch : List Char → List Char → Bool
  | [], _ => true
  | _ :: _, [] => false
  | c :: cs, d :: ds => c == d && prefixMatch cs ds

def subMatch (p : List Char) : List Char → Bool
  | [] => p.isEmpty
  | c :: t => prefixMatch p (c :: t) || subMatch p t

/-- `strContains s pat` holds when `pat` occurs as a contiguous
substring of `s` — the meaning of `re.search` for a literal pattern. -/
def strContains (s pat : String) : Bool := subMatch pat.data s.data

/-- Python `s.endswith(t)`. -/
def strEndsWith (s t : String) : Bool := prefixMatch t.data.reverse s.data.reverse

/-- Python `s.lower()`. -/
def strLower (s : String) : String := String.mk (s.data.map Char.toLower)

/-- Python `s.lstrip('v')`: removes every leading `'v'`. -/
def strLstripV (s : String) : String := String.mk (s.data.dropWhile (fun c => c == 'v'))

/-- Python `s.split(sep)[-1]` for a one-character separator: the
suffix after the last occurrence of the separator (used for
`repo.split('/')[-1]` and `Path(filename).name`). -/
def lastSegment (sep : Char) (s : String) : String :=
  String.mk ((s.data.reverse.takeWhile (fun c => !(c == sep))).reverse)

/-- Python `s.split('\n')[0][:100]`: first line, truncated to 100
characters. -/
def firstLine100 (s : String) : String :=
  String.mk ((s.data.takeWhile (fun c => !(c == '\n'))).take 100)

/-! ### Data model (`GitHub release JSON` as consumed by the script) -/

/-- One element of a release's `assets` array: the fields the script
reads (`asset['name']`, `asset['browser_download_url']`). -/
structure Asset where
  name : String
  browser_download_url : String
deriving DecidableEq

/-- A release object: the fields the script reads.  `body` is `none`
when the key is absent; `license` is `none` when absent or null, and
`some spdx` mirrors `license['spdx_id']` (inner `none` = missing
`spdx_id` key). -/
structure Release where
  tag_name : String
  body : Option String
  assets : List Asset
  license : Option (Option String)

/-- The failures the pipeline raises.  In the source they are all
`ValueError` with distinct messages: `notFound` = "No releases found
for the repository", `noAssets` = "No Windows assets found in the
release", `assetTooLarge` = "File too large: ... bytes". -/
inductive Err where
  | notFound
  | noAssets
  | assetTooLarge
deriving DecidableEq

/-- A JSON value as the script builds it: every leaf it writes is a
string, every node a key-ordered object (Python dict preserving
insertion order). -/
inductive JVal where
  | str : String → JVal
  | obj : List (String × JVal) → JVal

def lookupList : List (String × JVal) → String → Option JVal
  | [], _ => none
  | (k, v) :: rest, key => if k = key then some v else lookupList rest key

/-- Key lookup in an object (a Python `d[key]` / `key in d` probe). -/
def JVal.lookup : JVal → String → Option JVal
  | JVal.obj fields, key => lookupList fields key
  | JVal.str _, _ => none

/-! ### `get_latest_release` (lines 21–29)

The HTTP fetch and JSON decode are plumbing; the function's logic is:
raise when the listing is empty, else return the first entry. -/

def get_latest_release (releases : List Release) : Except Err Release :=
  match releases with
  | [] => Except.error Err.notFound
  | r :: _ => Except.ok r

/-! ### `get_file_hash` (lines 31–46)

A successful HTTP response is its optional `Content-Length` header
and the chunk sequence `iter_content` yields. -/

structure HttpResponse where
  contentLength : Option Nat
  chunks : List (List Nat)

/-- The 100 MB ceiling, `100 * 1024 * 1024` (line 38). -/
def sizeLimit : Nat := 100 * 1024 * 1024

/-- The hashing loop (lines 41–46): update with each non-empty chunk
(`if chunk:`), then `hexdigest()` — the digest of the accumulated
bytes. -/
def hashChunks (chunks : List (List Nat)) : String :=
  sha256hex ((chunks.filter (fun c => !c.isEmpty)).foldl (fun acc c => acc ++ c) [])

def get_file_hash (resp : HttpResponse) : Except Err String :=
  match resp.contentLength with
  | some n => if sizeLimit < n then Except.error Err.assetTooLarge else Except.ok (hashChunks resp.chunks)
  | none => Except.ok (hashChunks resp.chunks)

/-! ### `find_windows_assets` (lines 48–76) -/

/-- Python dict assignment `d[k] = v`: replace in place when the key
is present, else append (insertion order preserved). -/
def dictInsert (d : List (String × String)) (k v : String) : List (String × String) :=
  if d.any (fun p => p.1 == k) then d.map (fun p => if p.1 == k then (k, v) else p)
  else d ++ [(k, v)]

/-- The body of the classification loop for one asset. -/
def classifyAsset (d : List (String × String)) (asset : Asset) : List (String × String) :=
  let name := strLower asset.name
  if !(strEndsWith name ".exe" || strEndsWith name ".zip") then d
  else
    let url := asset.browser_download_url
    if strContains name "amd64-v3" || strContains name "x86_64-v3" then dictInsert d "64bit-v3" url
    else if strContains name "amd64" || strContains name "x86_64" then dictInsert d "64bit" url
    else if strContains name "x86" then dictInsert d "32bit" url
    else if strContains name "arm64" || strContains name "arm32" || strContains name "armv7" ||
            strContains name "386" || strContains name "686" || strContains name "linux" ||
            strContains name "darwin" || strContains name "freebsd" || strContains name "macos" then d
    else dictInsert d "unknown" url

def find_windows_assets (assets : List Asset) : List (String × String) :=
  assets.foldl classifyAsset []

/-! ### `generate_manifest` (lines 78–124) and `main` (lines 133–162) -/

/-- The base manifest dict (lines 94–103). -/
def manifestBase (repo app : String) (release : Release) : List (String × JVal) :=
  let bodyStr := release.body.getD ""
  let description := if bodyStr = "" then app ++ " - GitHub release" else firstLine100 bodyStr
  let license_info :=
    match release.license with
    | some (some s) => s
    | some none => "Unknown"
    | none => "Unknown"
  [("version", JVal.str (strLstripV release.tag_name)),
   ("description", JVal.str description),
   ("homepage", JVal.str ("https://github.com/" ++ repo)),
   ("license", JVal.str license_info),
   ("notes", JVal.str bodyStr)]

/-- The loop of lines 117–122: one `{url, hash, bin}` record per
bucket, in mapping order, failing when a download's hash fails. -/
def buildArchEntries (fetch : String → HttpResponse) (bin : String) :
    List (String × String) → Except Err (List (String × JVal))
  | [] => Except.ok []
  | (arch, url) :: rest =>
    match get_file_hash (fetch url) with
    | Except.error e => Except.error e
    | Except.ok h =>
      match buildArchEntries fetch bin rest with
      | Except.error e => Except.error e
      | Except.ok entries =>
        Except.ok ((arch, JVal.obj [("url", JVal.str url), ("hash", JVal.str h), ("bin", JVal.str bin)]) :: entries)

/-- Lines 91–122: raise `noAssets` on an empty mapping, use the flat
shape when the mapping has exactly one entry (`len(...) == 1`, taking
`next(iter(...))` = the first entry), else the nested
`architecture` shape. -/
def buildFromAssets (fetch : String → HttpResponse) (bin : String)
    (base : List (String × JVal)) : List (String × String) → Except Err JVal
  | [] => Except.error Err.noAssets
  | (arch, url) :: rest =>
    if rest.isEmpty then
      match get_file_hash (fetch url) with
      | Except.error e => Except.error e
      | Except.ok h =>
        Except.ok (JVal.obj (base ++ [("url", JVal.str url), ("hash", JVal.str h), ("bin", JVal.str bin)]))
    else
      match buildArchEntries fetch bin ((arch, url) :: rest) with
      | Except.error e => Except.error e
      | Except.ok entries => Except.ok (JVal.obj (base ++ [("architecture", JVal.obj entries)]))

/-- `generate_manifest(repo, app_name, bin_name)`.  The network is
modelled by the release listing `releases` and a map `fetch` from a
download URL to its response. -/
def generate_manifest (releases : List Release) (fetch : String → HttpResponse)
    (repo : String) (app_name bin_name : Option String) : Except Err JVal :=
  match get_latest_release releases with
  | Except.error e => Except.error e
  | Except.ok release =>
    let app := app_name.getD (lastSegment '/' repo)
    let bin := bin_name.getD (strLower app ++ ".exe")
    buildFromAssets fetch bin (manifestBase repo app release) (find_windows_assets release.assets)

/-- `main`'s success path: the list of files written (filename,
contents).  On any pipeline failure the program exits without
writing (lines 146–162); `save_manifest` keeps only the basename of
the file name (line 128). -/
def run_main (releases : List Release) (fetch : String → HttpResponse)
    (repo : String) (app_name bin_name : Option String) : List (String × JVal) :=
  match generate_manifest releases fetch repo app_name bin_name with
  | Except.ok m =>
    let filename := (app_name.getD (lastSegment '/' repo)) ++ ".json"
    [(lastSegment '/' filename, m)]
  | Except.error _ => []

/-! ### Helper lemmas: substring containment -/

theorem prefixMatch_append (p q : List Char) :
    ∀ l, prefixMatch (p ++ q) l = true → prefixMatch p l = true := by
  induction p with
  | nil => intro l _; rfl
  | cons c cs ih =>
    intro l h
    cases l with
    | nil => simp [prefixMatch] at h
    | cons d ds =>
      simp only [List.cons_append, prefixMatch, Bool.and_eq_true] at h ⊢
      exact ⟨h.1, ih ds h.2⟩

theorem subMatch_append (p q : List Char) :
    ∀ s, subMatch (p ++ q) s = true → subMatch p s = true := by
  intro s
  induction s with
  | nil =>
    intro h
    cases p with
    | nil => rfl
    | cons c cs => simp [subMatch, List.isEmpty] at h
  | cons c t ih =>
    intro h
    simp only [subMatch, Bool.or_eq_true] at h ⊢
    rcases h with h | h
    · exact Or.inl (prefixMatch_append p q _ h)
    · exact Or.inr (ih h)

/-- A name containing `amd64-v3` contains `amd64`. -/
theorem contains_amd64_of_amd64v3 (s : String) (h : strContains s "amd64-v3" = true) :
    strContains s "amd64" = true := by
  have e : ("amd64-v3" : String).data = ("amd64" : String).data ++ ("-v3" : String).data := by decide
  unfold strContains at h ⊢
  rw [e] at h
  exact subMatch_append _ _ _ h

/-- A name containing `x86_64` contains `x86`. -/
theorem contains_x86_of_x8664 (s : String) (h : strContains s "x86_64" = true) :
    strContains s "x86" = true := by
  have e : ("x86_64" : String).data = ("x86" : String).data ++ ("_64" : String).data := by decide
  unfold strContains at h ⊢
  rw [e] at h
  exact subMatch_append _ _ _ h

/-- A name containing `x86_64-v3` contains `x86`. -/
theorem contains_x86_of_x8664v3 (s : String) (h : strContains s "x86_64-v3" = true) :
    strContains s "x86" = true := by
  have e : ("x86_64-v3" : String).data = ("x86" : String).data ++ ("_64-v3" : String).data := by decide
  unfold strContains at h ⊢
  rw [e] at h
  exact subMatch_append _ _ _ h

/-! ### Helper lemmas: the classification fold -/

/-- An asset whose classification step leaves the mapping unchanged
contributes nothing to the final mapping, wherever it sits in the
asset list. -/
theorem classifyAsset_skip (a : Asset) (pre post : List Asset)
    (hskip : ∀ d, classifyAsset d a = d) :
    find_windows_assets (pre ++ a :: post) = find_windows_assets (pre ++ post) := by
  unfold find_windows_assets
  rw [List.foldl_append, List.foldl_append, List.foldl_cons, hskip]

/-- Lookup in the string-to-string mapping built by the classifier. -/
def lookupStr : List (String × String) → String → Option String
  | [], _ => none
  | (k, v) :: rest, key => if k = key then some v else lookupStr rest key

theorem lookupStr_map_replace (d : List (String × String)) (k v key : String)
    (hne : ¬(k = key)) :
    lookupStr (d.map (fun p => if p.1 == k then (k, v) else p)) key = lookupStr d key := by
  induction d with
  | nil => rfl
  | cons p rest ih =>
    obtain ⟨k', v'⟩ := p
    simp only [List.map_cons]
    by_cases hk : (k' == k) = true
    · have hk' : k' = k := by simpa using hk
      subst hk'
      rw [if_pos hk]
      simp only [lookupStr]
      rw [if_neg hne, if_neg hne]
      exact ih
    · rw [if_neg hk]
      simp only [lookupStr]
      by_cases hkey : k' = key
      · rw [if_pos hkey, if_pos hkey]
      · rw [if_neg hkey, if_neg hkey]
        exact ih

theorem lookupStr_append_single (d : List (String × String)) (k v key : String)
    (hne : ¬(k = key)) :
    lookupStr (d ++ [(k, v)]) key = lookupStr d key := by
  induction d with
  | nil => simp [lookupStr, if_neg hne]
  | cons p rest ih =>
    obtain ⟨k', v'⟩ := p
    simp only [List.cons_append, lookupStr]
    by_cases hkey : k' = key
    · rw [if_pos hkey, if_pos hkey]
    · rw [if_neg hkey, if_neg hkey]
      exact ih

/-- `dictInsert` at one key does not change lookups at another key. -/
theorem lookupStr_dictInsert_ne (d : List (String × String)) (k v key : String)
    (hne : ¬(k = key)) : lookupStr (dictInsert d k v) key = lookupStr d key := by
  unfold dictInsert
  by_cases hmem : d.any (fun p => p.1 == k) = true
  · rw [if_pos hmem]
    exact lookupStr_map_replace d k v key hne
  · rw [if_neg hmem]
    exact lookupStr_append_single d k v key hne


/-! ### Helper lemmas: manifest lookups -/

theorem lookupList_append (l1 l2 : List (String × JVal)) (k : String) :
    lookupList (l1 ++ l2) k =
      match lookupList l1 k with
      | some v => some v
      | none => lookupList l2 k := by
  induction l1 with
  | nil => rfl
  | cons p rest ih =>
    obtain ⟨k', v⟩ := p
    simp only [List.cons_append, lookupList]
    by_cases hk : k' = k
    · rw [if_pos hk, if_pos hk]
    · rw [if_neg hk, if_neg hk]
      exact ih

theorem lookupBase_version (repo app : String) (r : Release) :
    lookupList (manifestBase repo app r) "version" = some (JVal.str (strLstripV r.tag_name)) := rfl

theorem lookupBase_url (repo app : String) (r : Release) :
    lookupList (manifestBase repo app r) "url" = none := rfl

theorem lookupBase_hash (repo app : String) (r : Release) :
    lookupList (manifestBase repo app r) "hash" = none := rfl

theorem lookupBase_bin (repo app : String) (r : Release) :
    lookupList (manifestBase repo app r) "bin" = none := rfl

theorem lookupBase_architecture (repo app : String) (r : Release) :
    lookupList (manifestBase repo app r) "architecture" = none := rfl

theorem lookupBase_autoupdate (repo app : String) (r : Release) :
    lookupList (manifestBase repo app r) "autoupdate" = none := rfl

theorem base_keys (repo app : String) (r : Release) :
    (manifestBase repo app r).map Prod.fst =
      ["version", "description", "homepage", "license", "notes"] := rfl

/-! ### Helper lemmas: the digest computer and the builder -/

theorem get_file_hash_error (resp : HttpResponse) (e : Err)
    (h : get_file_hash resp = Except.error e) : e = Err.assetTooLarge := by
  obtain ⟨cl, chunks⟩ := resp
  cases cl with
  | none => exact Except.noConfusion h
  | some n =>
    simp only [get_file_hash] at h
    by_cases hn : sizeLimit < n
    · rw [if_pos hn] at h
      injection h with h2
      exact h2.symm
    · rw [if_neg hn] at h
      exact Except.noConfusion h

theorem get_file_hash_ok (resp : HttpResponse) (s : String)
    (h : get_file_hash resp = Except.ok s) : s = hashChunks resp.chunks := by
  obtain ⟨cl, chunks⟩ := resp
  cases cl with
  | none =>
    simp only [get_file_hash] at h
    injection h with h2
    exact h2.symm
  | some n =>
    simp only [get_file_hash] at h
    by_cases hn : sizeLimit < n
    · rw [if_pos hn] at h
      exact Except.noConfusion h
    · rw [if_neg hn] at h
      injection h with h2
      exact h2.symm

theorem buildArchEntries_error (fetch : String → HttpResponse) (bin : String) :
    ∀ (l : List (String × String)) (e : Err),
      buildArchEntries fetch bin l = Except.error e → e = Err.assetTooLarge := by
  intro l
  induction l with
  | nil =>
    intro e h
    exact Except.noConfusion h
  | cons p rest ih =>
    obtain ⟨arch, url⟩ := p
    intro e h
    simp only [buildArchEntries] at h
    split at h
    next e1 heq =>
      injection h with h2
      rw [← h2]
      exact get_file_hash_error _ _ heq
    next s heq =>
      split at h
      next e2 heq2 =>
        injection h with h2
        rw [← h2]
        exact ih _ heq2
      next entries heq2 => exact Except.noConfusion h

theorem buildArchEntries_ok (fetch : String → HttpResponse) (bin : String) :
    ∀ (l : List (String × String)) (entries : List (String × JVal)),
      buildArchEntries fetch bin l = Except.ok entries →
      entries.map Prod.fst = l.map Prod.fst ∧
      ∀ p ∈ entries, ∃ u hh,
        p.2 = JVal.obj [("url", JVal.str u), ("hash", JVal.str hh), ("bin", JVal.str bin)] := by
  intro l
  induction l with
  | nil =>
    intro entries h
    injection h with h2
    rw [← h2]
    exact ⟨rfl, fun p hp => absurd hp (List.not_mem_nil p)⟩
  | cons p rest ih =>
    obtain ⟨arch, url⟩ := p
    intro entries h
    simp only [buildArchEntries] at h
    split at h
    next e1 heq => exact Except.noConfusion h
    next s heq =>
      split at h
      next e2 heq2 => exact Except.noConfusion h
      next tailEntries heq2 =>
        injection h with h2
        rw [← h2]
        obtain ⟨hmap, hrec⟩ := ih tailEntries heq2
        constructor
        · simp only [List.map_cons, hmap]
        · intro q hq
          rcases List.mem_cons.mp hq with hq1 | hq2
          · rw [hq1]
            exact ⟨url, s, rfl⟩
          · exact hrec q hq2

theorem buildFromAssets_error (fetch : String → HttpResponse) (bin : String)
    (base : List (String × JVal)) (l : List (String × String)) (e : Err)
    (h : buildFromAssets fetch bin base l = Except.error e) :
    (l = [] ∧ e = Err.noAssets) ∨ e = Err.assetTooLarge := by
  cases l with
  | nil =>
    injection h with h2
    exact Or.inl ⟨rfl, h2.symm⟩
  | cons p rest =>
    obtain ⟨arch, url⟩ := p
    simp only [buildFromAssets] at h
    by_cases hr : rest.isEmpty = true
    · rw [if_pos hr] at h
      split at h
      next e1 heq =>
        injection h with h2
        refine Or.inr ?_
        rw [← h2]
        exact get_file_hash_error _ _ heq
      next s heq => exact Except.noConfusion h
    · rw [if_neg hr] at h
      split at h
      next e2 heq =>
        injection h with h2
        refine Or.inr ?_
        rw [← h2]
        exact buildArchEntries_error fetch bin _ _ heq
      next entries heq => exact Except.noConfusion h

theorem buildFromAssets_ok (fetch : String → HttpResponse) (bin : String)
    (base : List (String × JVal)) (l : List (String × String)) (m : JVal)
    (h : buildFromAssets fetch bin base l = Except.ok m) :
    (∃ arch url hh, l = [(arch, url)] ∧
       m = JVal.obj (base ++ [("url", JVal.str url), ("hash", JVal.str hh), ("bin", JVal.str bin)])) ∨
    (∃ entries, 2 ≤ l.length ∧
       m = JVal.obj (base ++ [("architecture", JVal.obj entries)]) ∧
       entries.map Prod.fst = l.map Prod.fst ∧
       ∀ p ∈ entries, ∃ u hh,
         p.2 = JVal.obj [("url", JVal.str u), ("hash", JVal.str hh), ("bin", JVal.str bin)]) := by
  cases l with
  | nil => exact Except.noConfusion h
  | cons p rest =>
    obtain ⟨arch, url⟩ := p
    simp only [buildFromAssets] at h
    by_cases hr : rest.isEmpty = true
    · have hrest : rest = [] := by
        cases rest with
        | nil => rfl
        | cons q t => simp [List.isEmpty] at hr
      rw [if_pos hr] at h
      split at h
      next e1 heq => exact Except.noConfusion h
      next s heq =>
        injection h with h2
        exact Or.inl ⟨arch, url, s, by rw [hrest], h2.symm⟩
    · rw [if_neg hr] at h
      split at h
      next e heq => exact Except.noConfusion h
      next entries heq =>
        injection h with h2
        obtain ⟨hmap, hrec⟩ := buildArchEntries_ok fetch bin _ _ heq
        refine Or.inr ⟨entries, ?_, h2.symm, hmap, hrec⟩
        cases rest with
        | nil => simp [List.isEmpty] at hr
        | cons q t =>
          simp only [List.length_cons]
          omega

/-- A successful build always yields the base dict followed by one of
the two shapes. -/
theorem buildFromAssets_ok_obj (fetch : String → HttpResponse) (bin : String)
    (base : List (String × JVal)) (l : List (String × String)) (m : JVal)
    (h : buildFromAssets fetch bin base l = Except.ok m) :
    ∃ ext, m = JVal.obj (base ++ ext) := by
  rcases buildFromAssets_ok fetch bin base l m h with ⟨arch, url, hh, hl, hm⟩ | ⟨entries, hlen, hm, hmap, hrec⟩
  · exact ⟨_, hm⟩
  · exact ⟨_, hm⟩

/-- `generate_manifest` on a non-empty listing is the builder applied
to the head release. -/
theorem generate_manifest_cons (rel : Release) (rest : List Release)
    (fetch : String → HttpResponse) (repo : String) (an bn : Option String) :
    generate_manifest (rel :: rest) fetch repo an bn =
      buildFromAssets fetch
        (bn.getD (strLower (an.getD (lastSegment '/' repo)) ++ ".exe"))
        (manifestBase repo (an.getD (lastSegment '/' repo)) rel)
        (find_windows_assets rel.assets) := rfl

/-- Skipping the empty chunks does not change the accumulated bytes. -/
theorem filter_join_acc : ∀ (chunks : List (List Nat)) (acc : List Nat),
    (chunks.filter (fun c => !c.isEmpty)).foldl (fun acc c => acc ++ c) acc =
      chunks.foldl (fun acc c => acc ++ c) acc := by
  intro chunks
  induction chunks with
  | nil => intro acc; rfl
  | cons c t ih =>
    intro acc
    cases c with
    | nil =>
      simp only [List.filter, List.isEmpty, Bool.not_true, List.foldl_cons, List.append_nil]
      exact ih acc
    | cons x xs =>
      simp only [List.filter, List.isEmpty, Bool.not_false, List.foldl_cons]
      exact ih (acc ++ x :: xs)

/-- Characterization of `lstrip('v')`: the input is a block of `'v'`
characters followed by the result, and the result does not start with
`'v'`. -/
theorem dropWhile_v_replicate : ∀ l : List Char,
    ∃ k, l = List.replicate k 'v' ++ l.dropWhile (fun c => c == 'v') ∧
      ∀ c, (l.dropWhile (fun c => c == 'v')).head? = some c → ¬(c = 'v') := by
  intro l
  induction l with
  | nil => exact ⟨0, rfl, fun c h => absurd h (by simp)⟩
  | cons c t ih =>
    cases hcv : (c == 'v') with
    | true =>
      have hc : c = 'v' := by simpa using hcv
      subst hc
      obtain ⟨k, hk, hh⟩ := ih
      refine ⟨k + 1, ?_, ?_⟩
      · simp only [List.dropWhile, hcv, List.replicate, List.cons_append]
        exact congrArg (List.cons 'v') hk
      · simp only [List.dropWhile, hcv]
        exact hh
    | false =>
      have hc : ¬(c = 'v') := by simpa using hcv
      refine ⟨0, ?_, ?_⟩
      · simp only [List.dropWhile, hcv, List.replicate, List.nil_append]
      · intro c2 h
        simp only [List.dropWhile, hcv, List.head?_cons, Option.some.injEq] at h
        rw [← h]
        exact hc

/-- The sixteen characters a lowercase hexadecimal digest is made
of: digits `0`–`9` then letters `a`–`f`. -/
def hexAlphabet : List Char := (List.range 16).map hexDigit

theorem hexAlphabet_spec : hexAlphabet = "0123456789abcdef".data := by decide

theorem hexDigit_mem (n : Nat) (h : n < 16) : hexDigit n ∈ hexAlphabet :=
  List.mem_map_of_mem hexDigit (List.mem_range.mpr h)

theorem wordHex_mem (w : Nat) : ∀ c ∈ wordHex w, c ∈ hexAlphabet := by
  intro c hc
  simp only [wordHex, List.mem_cons, List.not_mem_nil, or_false] at hc
  rcases hc with h | h | h | h | h | h | h | h <;>
    (rw [h]; exact hexDigit_mem _ (Nat.mod_lt _ (by decide)))

theorem data_mk (l : List Char) : (String.mk l).data = l := rfl

/-- The digest string is always 64 characters from the lowercase
hexadecimal alphabet. -/
theorem sha256hex_shape (msg : List Nat) :
    (sha256hex msg).data.length = 64 ∧ ∀ c ∈ (sha256hex msg).data, c ∈ hexAlphabet := by
  unfold sha256hex
  constructor
  · simp [data_mk, List.length_append, wordHex]
  · intro c hc
    simp only [data_mk, List.mem_append] at hc
    rcases hc with ((((((h | h) | h) | h) | h) | h) | h) | h <;> exact wordHex_mem _ _ h

/-! ### Shared concrete instances used by witnesses and
counterexamples -/

def exAsset : Asset := ⟨"app-1.0.exe", "https://e/app.exe"⟩

def exFetch : String → HttpResponse := fun _ => ⟨none, []⟩

def exRelease : Release := ⟨"v1.0", none, [exAsset], none⟩

def relC3 : Release := ⟨"vv1.0", none, [exAsset], none⟩

def exManifest : JVal :=
  JVal.obj
    [("version", JVal.str "1.0"),
     ("description", JVal.str "app - GitHub release"),
     ("homepage", JVal.str "https://github.com/o/app"),
     ("license", JVal.str "Unknown"),
     ("notes", JVal.str ""),
     ("url", JVal.str "https://e/app.exe"),
     ("hash", JVal.str "e3b0c44298fc1c149afbf4c8996fb92427ae41e4649b934ca495991b7852b855"),
     ("bin", JVal.str "app.exe")]

/-! ### Claim C9: extension filter runs before any classification -/

/-- C9: an asset whose lowercased name ends neither in `.exe` nor in
`.zip` (e.g. `.tar.gz` or `.sha256` names) is excluded by the
classifier regardless of any architecture tokens in the name: the
bucket mapping is the same as if the asset were absent. -/
theorem claim9_nonbinary_excluded (pre post : List Asset) (a : Asset)
    (h1 : strEndsWith (strLower a.name) ".exe" = false)
    (h2 : strEndsWith (strLower a.name) ".zip" = false) :
    find_windows_assets (pre ++ a :: post) = find_windows_assets (pre ++ post) := by
  apply classifyAsset_skip
  intro d
  simp [classifyAsset, h1, h2]

theorem claim9_witness :
    strEndsWith (strLower "tool-amd64.tar.gz") ".exe" = false ∧
    strEndsWith (strLower "tool-amd64.tar.gz") ".zip" = false ∧
    strContains (strLower "tool-amd64.tar.gz") "amd64" = true ∧
    find_windows_assets ([] ++ (⟨"tool-amd64.tar.gz", "u"⟩ : Asset) :: []) =
      find_windows_assets ([] ++ []) :=
  ⟨by decide, by decide, by decide,
   claim9_nonbinary_excluded [] [] ⟨"tool-amd64.tar.gz", "u"⟩ (by decide) (by decide)⟩

/-! ### Claim C1: other-OS tokens versus architecture tokens

The claim as stated is false: the architecture regexes run first, so
a name such as `tool-linux-amd64.zip` is bucketed into `64bit`
despite containing `linux`. -/

/-- C1 counterexample: `tool-linux-amd64.zip` passes the extension
filter and contains the other-OS token `linux`, yet the classifier
places it in bucket `64bit` instead of excluding it. -/
theorem claim1_counterexample :
    strEndsWith (strLower "tool-linux-amd64.zip") ".zip" = true ∧
    strContains (strLower "tool-linux-amd64.zip") "linux" = true ∧
    strContains (strLower "tool-linux-amd64.zip") "amd64" = true ∧
    find_windows_assets [⟨"tool-linux-amd64.zip", "u"⟩] = [("64bit", "u")] := by
  exact ⟨by decide, by decide, by decide, by decide⟩

/-- C1 amended: an asset whose lowercased name contains a non-Windows
platform token is excluded only when the name contains none of the
architecture tokens (`amd64`, `x86`, and their supersets); with no
architecture token present, the asset contributes nothing to the
bucket mapping. -/
theorem claim1_os_token_amended (pre post : List Asset) (a : Asset)
    (hos : (strContains (strLower a.name) "arm64" || strContains (strLower a.name) "arm32" ||
            strContains (strLower a.name) "armv7" || strContains (strLower a.name) "386" ||
            strContains (strLower a.name) "686" || strContains (strLower a.name) "linux" ||
            strContains (strLower a.name) "darwin" || strContains (strLower a.name) "freebsd" ||
            strContains (strLower a.name) "macos") = true)
    (hamd : strContains (strLower a.name) "amd64" = false)
    (hx86 : strContains (strLower a.name) "x86" = false) :
    find_windows_assets (pre ++ a :: post) = find_windows_assets (pre ++ post) := by
  apply classifyAsset_skip
  intro d
  have h1 : strContains (strLower a.name) "amd64-v3" = false := by
    cases hq : strContains (strLower a.name) "amd64-v3" with
    | false => rfl
    | true => exact absurd (contains_amd64_of_amd64v3 _ hq) (by simp [hamd])
  have h2 : strContains (strLower a.name) "x86_64" = false := by
    cases hq : strContains (strLower a.name) "x86_64" with
    | false => rfl
    | true => exact absurd (contains_x86_of_x8664 _ hq) (by simp [hx86])
  have h3 : strContains (strLower a.name) "x86_64-v3" = false := by
    cases hq : strContains (strLower a.name) "x86_64-v3" with
    | false => rfl
    | true => exact absurd (contains_x86_of_x8664v3 _ hq) (by simp [hx86])
  simp [classifyAsset, h1, h2, h3, hamd, hx86, hos]

theorem claim1_witness :
    (strContains (strLower "tool-linux.zip") "arm64" || strContains (strLower "tool-linux.zip") "arm32" ||
     strContains (strLower "tool-linux.zip") "armv7" || strContains (strLower "tool-linux.zip") "386" ||
     strContains (strLower "tool-linux.zip") "686" || strContains (strLower "tool-linux.zip") "linux" ||
     strContains (strLower "tool-linux.zip") "darwin" || strContains (strLower "tool-linux.zip") "freebsd" ||
     strContains (strLower "tool-linux.zip") "macos") = true ∧
    strContains (strLower "tool-linux.zip") "amd64" = false ∧
    strContains (strLower "tool-linux.zip") "x86" = false ∧
    find_windows_assets ([] ++ (⟨"tool-linux.zip", "u"⟩ : Asset) :: []) =
      find_windows_assets ([] ++ []) :=
  ⟨by decide, by decide, by decide,
   claim1_os_token_amended [] [] ⟨"tool-linux.zip", "u"⟩ (by decide) (by decide) (by decide)⟩

/-! ### Claim C4: the `v3` qualifier

The claim as stated is false: only the contiguous tokens `amd64-v3`
and `x86_64-v3` select the `64bit-v3` bucket; a name containing
`v3` and a 64-bit token separately falls through to `64bit`. -/

/-- C4 counterexample: `app-v3-amd64.zip` contains both the 64-bit
token `amd64` and the qualifier `v3`, yet it is bucketed `64bit`,
not `64bit-v3`. -/
theorem claim4_counterexample :
    strEndsWith (strLower "app-v3-amd64.zip") ".zip" = true ∧
    strContains (strLower "app-v3-amd64.zip") "amd64" = true ∧
    strContains (strLower "app-v3-amd64.zip") "v3" = true ∧
    find_windows_assets [⟨"app-v3-amd64.zip", "u"⟩] = [("64bit", "u")] := by
  exact ⟨by decide, by decide, by decide, by decide⟩

/-- C4 amended: an asset passing the extension filter whose lowercased
name contains the contiguous token `amd64-v3` or `x86_64-v3` is
assigned bucket `64bit-v3`, and the `64bit` bucket is left
untouched by that step. -/
theorem claim4_v3_amended (d : List (String × String)) (a : Asset)
    (hext : (strEndsWith (strLower a.name) ".exe" || strEndsWith (strLower a.name) ".zip") = true)
    (hv3 : (strContains (strLower a.name) "amd64-v3" || strContains (strLower a.name) "x86_64-v3") = true) :
    classifyAsset d a = dictInsert d "64bit-v3" a.browser_download_url ∧
    lookupStr (classifyAsset d a) "64bit" = lookupStr d "64bit" := by
  have h1 : classifyAsset d a = dictInsert d "64bit-v3" a.browser_download_url := by
    simp [classifyAsset, hext, hv3]
  refine ⟨h1, ?_⟩
  rw [h1]
  exact lookupStr_dictInsert_ne d _ _ _ (by decide)

theorem claim4_witness :
    (strEndsWith (strLower "app-amd64-v3.exe") ".exe" || strEndsWith (strLower "app-amd64-v3.exe") ".zip") = true ∧
    (strContains (strLower "app-amd64-v3.exe") "amd64-v3" || strContains (strLower "app-amd64-v3.exe") "x86_64-v3") = true ∧
    classifyAsset [] ⟨"app-amd64-v3.exe", "u"⟩ = dictInsert [] "64bit-v3" "u" ∧
    lookupStr (classifyAsset [] ⟨"app-amd64-v3.exe", "u"⟩) "64bit" = lookupStr [] "64bit" :=
  ⟨by decide, by decide,
   (claim4_v3_amended [] ⟨"app-amd64-v3.exe", "u"⟩ (by decide) (by decide)).1,
   (claim4_v3_amended [] ⟨"app-amd64-v3.exe", "u"⟩ (by decide) (by decide)).2⟩

/-- The digest computer on a response with no size header: the guard
is skipped and the digest of the received bytes is returned. -/
theorem get_file_hash_none (chunks : List (List Nat)) :
    get_file_hash ⟨none, chunks⟩ =
      Except.ok (sha256hex (chunks.foldl (fun acc c => acc ++ c) [])) := by
  simp only [get_file_hash, hashChunks]
  rw [filter_join_acc]

/-! ### Claim C8: release resolver -/

/-- C8: on an empty release listing the resolver fails with the
not-found error and the pipeline runs no later stage (the generator
fails with the same error and nothing is written); on a non-empty
listing it returns the first entry, the newest by listing order. -/
theorem claim8_latest_release :
    get_latest_release ([] : List Release) = Except.error Err.notFound ∧
    (∀ (r : Release) (rest : List Release), get_latest_release (r :: rest) = Except.ok r) ∧
    (∀ (fetch : String → HttpResponse) (repo : String) (an bn : Option String),
      generate_manifest [] fetch repo an bn = Except.error Err.notFound ∧
      run_main [] fetch repo an bn = []) :=
  ⟨rfl, fun _ _ => rfl, fun _ _ _ _ => ⟨rfl, rfl⟩⟩

/-! ### Claim C10: missing size header disables the guard -/

/-- C10: when the response carries no `Content-Length` header, the
digest computer never raises the too-large error: whatever the body
size, it returns the digest of the received bytes. -/
theorem claim10_no_size_header (chunks : List (List Nat)) :
    get_file_hash ⟨none, chunks⟩ =
      Except.ok (sha256hex (chunks.foldl (fun acc c => acc ++ c) [])) :=
  get_file_hash_none chunks

/-! ### Claim C7: the 100 MiB guard and the digest -/

/-- C7: a declared size above the 100 MiB ceiling fails with the
too-large error whatever the body holds (so before any body bytes
are consumed), and a failed pipeline writes no output file; a
declared size at or below the ceiling yields the SHA-256 digest of
exactly the bytes received, a 64-character lowercase hexadecimal
string. -/
theorem claim7_size_guard :
    (∀ (n : Nat) (chunks : List (List Nat)), sizeLimit < n →
        get_file_hash ⟨some n, chunks⟩ = Except.error Err.assetTooLarge) ∧
    (∀ resp : HttpResponse, (∀ n, resp.contentLength = some n → n ≤ sizeLimit) →
        get_file_hash resp = Except.ok (sha256hex (resp.chunks.foldl (fun acc c => acc ++ c) []))) ∧
    (∀ (releases : List Release) (fetch : String → HttpResponse) (repo : String)
        (an bn : Option String) (e : Err),
        generate_manifest releases fetch repo an bn = Except.error e →
        run_main releases fetch repo an bn = []) ∧
    (∀ msg : List Nat, (sha256hex msg).data.length = 64 ∧
        ∀ c ∈ (sha256hex msg).data, c ∈ hexAlphabet) := by
  refine ⟨?_, ?_, ?_, sha256hex_shape⟩
  · intro n chunks hn
    simp only [get_file_hash]
    rw [if_pos hn]
  · intro resp hcl
    obtain ⟨cl, chunks⟩ := resp
    cases cl with
    | none => exact get_file_hash_none chunks
    | some n =>
      have hle : n ≤ sizeLimit := hcl n rfl
      simp only [get_file_hash, hashChunks]
      rw [if_neg (by omega), filter_join_acc]
  · intro releases fetch repo an bn e h
    simp only [run_main, h]

theorem claim7_witness :
    sizeLimit < 104857601 ∧
    get_file_hash ⟨some 104857601, [[1, 2]]⟩ = Except.error Err.assetTooLarge ∧
    get_file_hash ⟨some 3, [[97], [], [98, 99]]⟩ = Except.ok (sha256hex [97, 98, 99]) ∧
    run_main [] exFetch "o/app" none none = [] :=
  ⟨by decide,
   claim7_size_guard.1 104857601 [[1, 2]] (by decide),
   claim7_size_guard.2.1 ⟨some 3, [[97], [], [98, 99]]⟩
     (fun n hn => by injection hn with h2; rw [← h2]; decide),
   claim7_size_guard.2.2.1 [] exFetch "o/app" none none Err.notFound rfl⟩

/-! ### Claim C6: the no-assets error and the at-least-one-entry
invariant -/

/-- C6: on a non-empty listing, manifest construction fails with the
no-assets error exactly when the classifier mapping is empty, and
every manifest actually produced carries at least one url/hash/bin
record (flat, or inside a non-empty `architecture` object). -/
theorem claim6_noassets (releases : List Release) (fetch : String → HttpResponse)
    (repo : String) (an bn : Option String) (rel : Release) (rest : List Release)
    (hrel : releases = rel :: rest) :
    ((generate_manifest releases fetch repo an bn = Except.error Err.noAssets) ↔
      find_windows_assets rel.assets = []) ∧
    (∀ m, generate_manifest releases fetch repo an bn = Except.ok m →
      (∃ u, m.lookup "url" = some u) ∨
      (∃ entries, m.lookup "architecture" = some (JVal.obj entries) ∧ ¬(entries = []))) := by
  subst hrel
  rw [generate_manifest_cons]
  constructor
  · constructor
    · intro h
      rcases buildFromAssets_error _ _ _ _ _ h with ⟨hl, _⟩ | habs
      · exact hl
      · exact absurd habs (by decide)
    · intro h
      rw [h]
      rfl
  · intro m hok
    rcases buildFromAssets_ok _ _ _ _ _ hok with ⟨arch, url, hh, hl, hm⟩ | ⟨entries, hlen, hm, hmap, hrec⟩
    · rw [hm]
      left
      refine ⟨JVal.str url, ?_⟩
      simp only [JVal.lookup]
      rw [lookupList_append, lookupBase_url]
      rfl
    · rw [hm]
      right
      refine ⟨entries, ?_, ?_⟩
      · simp only [JVal.lookup]
        rw [lookupList_append, lookupBase_architecture]
        rfl
      · intro hnil
        rw [hnil] at hmap
        have hl0 : find_windows_assets rel.assets = [] := by
          cases hfe : find_windows_assets rel.assets with
          | nil => rfl
          | cons q t =>
            rw [hfe] at hmap
            exact absurd hmap.symm (by simp)
        rw [hl0] at hlen
        simp at hlen

theorem claim6_witness :
    ((generate_manifest [exRelease] exFetch "o/app" none none = Except.error Err.noAssets) ↔
      find_windows_assets exRelease.assets = []) ∧
    (∀ m, generate_manifest [exRelease] exFetch "o/app" none none = Except.ok m →
      (∃ u, m.lookup "url" = some u) ∨
      (∃ entries, m.lookup "architecture" = some (JVal.obj entries) ∧ ¬(entries = []))) :=
  claim6_noassets [exRelease] exFetch "o/app" none none exRelease [] rfl

/-! ### Claim C5: flat shape versus nested shape -/

/-- C5: a produced manifest has the flat single-target shape
(top-level url/hash/bin, no `architecture` key) exactly when the
bucket mapping has one entry, and the nested `architecture` shape
(one url/hash/bin record per bucket label, no top-level url) exactly
when it has more than one. -/
theorem claim5_shape (releases : List Release) (fetch : String → HttpResponse)
    (repo : String) (an bn : Option String) (rel : Release) (rest : List Release) (m : JVal)
    (hrel : releases = rel :: rest)
    (hok : generate_manifest releases fetch repo an bn = Except.ok m) :
    (((find_windows_assets rel.assets).length = 1) ↔
       (m.lookup "architecture" = none ∧
        ∃ u hh b, m.lookup "url" = some (JVal.str u) ∧ m.lookup "hash" = some (JVal.str hh) ∧
          m.lookup "bin" = some (JVal.str b))) ∧
    ((1 < (find_windows_assets rel.assets).length) ↔
       (m.lookup "url" = none ∧
        ∃ entries, m.lookup "architecture" = some (JVal.obj entries) ∧
          entries.map Prod.fst = (find_windows_assets rel.assets).map Prod.fst ∧
          ∀ p ∈ entries, ∃ u hh b,
            p.2 = JVal.obj [("url", JVal.str u), ("hash", JVal.str hh), ("bin", JVal.str b)])) := by
  subst hrel
  rw [generate_manifest_cons] at hok
  rcases buildFromAssets_ok _ _ _ _ _ hok with ⟨arch, url, hh, hl, hm⟩ | ⟨entries, hlen, hm, hmap, hrec⟩
  · rw [hl, hm]
    have harch : (JVal.obj (manifestBase repo (an.getD (lastSegment '/' repo)) rel ++
        [("url", JVal.str url), ("hash", JVal.str hh),
         ("bin", JVal.str (bn.getD (strLower (an.getD (lastSegment '/' repo)) ++ ".exe")))])).lookup
        "architecture" = none := by
      simp only [JVal.lookup]
      rw [lookupList_append, lookupBase_architecture]
      rfl
    constructor
    · constructor
      · intro _
        refine ⟨harch, url, hh, bn.getD (strLower (an.getD (lastSegment '/' repo)) ++ ".exe"), ?_, ?_, ?_⟩
        · simp only [JVal.lookup]
          rw [lookupList_append, lookupBase_url]
          rfl
        · simp only [JVal.lookup]
          rw [lookupList_append, lookupBase_hash]
          rfl
        · simp only [JVal.lookup]
          rw [lookupList_append, lookupBase_bin]
          rfl
      · intro _
        rfl
    · constructor
      · intro hlt
        simp at hlt
      · rintro ⟨hurlnone, _⟩
        have hurl : (JVal.obj (manifestBase repo (an.getD (lastSegment '/' repo)) rel ++
            [("url", JVal.str url), ("hash", JVal.str hh),
             ("bin", JVal.str (bn.getD (strLower (an.getD (lastSegment '/' repo)) ++ ".exe")))])).lookup
            "url" = some (JVal.str url) := by
          simp only [JVal.lookup]
          rw [lookupList_append, lookupBase_url]
          rfl
        rw [hurl] at hurlnone
        exact Option.noConfusion hurlnone
  · rw [hm]
    have harch : (JVal.obj (manifestBase repo (an.getD (lastSegment '/' repo)) rel ++
        [("architecture", JVal.obj entries)])).lookup "architecture" =
        some (JVal.obj entries) := by
      simp only [JVal.lookup]
      rw [lookupList_append, lookupBase_architecture]
      rfl
    have hurl : (JVal.obj (manifestBase repo (an.getD (lastSegment '/' repo)) rel ++
        [("architecture", JVal.obj entries)])).lookup "url" = none := by
      simp only [JVal.lookup]
      rw [lookupList_append, lookupBase_url]
      rfl
    constructor
    · constructor
      · intro h1
        omega
      · rintro ⟨hnone, _⟩
        rw [harch] at hnone
        exact Option.noConfusion hnone
    · constructor
      · intro _
        refine ⟨hurl, entries, harch, hmap, ?_⟩
        intro p hp
        obtain ⟨u, hhp, hp2⟩ := hrec p hp
        exact ⟨u, hhp, _, hp2⟩
      · intro _
        omega

theorem claim5_witness :
    (((find_windows_assets exRelease.assets).length = 1) ↔
       (exManifest.lookup "architecture" = none ∧
        ∃ u hh b, exManifest.lookup "url" = some (JVal.str u) ∧
          exManifest.lookup "hash" = some (JVal.str hh) ∧
          exManifest.lookup "bin" = some (JVal.str b))) ∧
    ((1 < (find_windows_assets exRelease.assets).length) ↔
       (exManifest.lookup "url" = none ∧
        ∃ entries, exManifest.lookup "architecture" = some (JVal.obj entries) ∧
          entries.map Prod.fst = (find_windows_assets exRelease.assets).map Prod.fst ∧
          ∀ p ∈ entries, ∃ u hh b,
            p.2 = JVal.obj [("url", JVal.str u), ("hash", JVal.str hh), ("bin", JVal.str b)])) :=
  claim5_shape [exRelease] exFetch "o/app" none none exRelease [] exManifest rfl (by rfl)

/-! ### Claim C3: version normalization

The claim as stated is false: `lstrip('v')` removes every leading
`'v'`, not at most one. -/

/-- What the spec asserts: strip a single leading version-prefix
character when present. -/
def specStripOneLeadingV (tag : String) : String :=
  match tag.data with
  | 'v' :: rest => String.mk rest
  | _ => tag

/-- C3 counterexample: for the tag `vv1.0` the built manifest's
version is `1.0` (all leading `v`s removed), not the `v1.0` the
claim demands. -/
theorem claim3_counterexample :
    (match generate_manifest [relC3] exFetch "o/app" none none with
      | Except.ok m => m.lookup "version"
      | Except.error _ => none) = some (JVal.str "1.0") ∧
    specStripOneLeadingV "vv1.0" = "v1.0" ∧
    ¬(("1.0" : String) = "v1.0") :=
  ⟨by rfl, rfl, by decide⟩

/-- C3 amended: the version field of a built manifest equals the
release tag with every leading `'v'` character removed (and nothing
else removed): the tag is a block of `k` `'v'`s followed by the
version, and the version does not begin with `'v'`. -/
theorem claim3_version_amended (releases : List Release) (fetch : String → HttpResponse)
    (repo : String) (an bn : Option String) (rel : Release) (rest : List Release) (m : JVal)
    (hrel : releases = rel :: rest)
    (hok : generate_manifest releases fetch repo an bn = Except.ok m) :
    ∃ v k, m.lookup "version" = some (JVal.str v) ∧
      rel.tag_name.data = List.replicate k 'v' ++ v.data ∧
      (∀ c, v.data.head? = some c → ¬(c = 'v')) := by
  subst hrel
  rw [generate_manifest_cons] at hok
  obtain ⟨ext, hm⟩ := buildFromAssets_ok_obj _ _ _ _ _ hok
  obtain ⟨k, hk, hhead⟩ := dropWhile_v_replicate rel.tag_name.data
  refine ⟨strLstripV rel.tag_name, k, ?_, hk, hhead⟩
  rw [hm]
  simp only [JVal.lookup]
  rw [lookupList_append, lookupBase_version]

theorem claim3_witness :
    ∃ v k, exManifest.lookup "version" = some (JVal.str v) ∧
      ("vv1.0" : String).data = List.replicate k 'v' ++ v.data ∧
      (∀ c, v.data.head? = some c → ¬(c = 'v')) :=
  claim3_version_amended [relC3] exFetch "o/app" none none relC3 [] exManifest rfl (by rfl)

/-! ### Claim C2: no auto-update template

The claim as stated is false: the builder never constructs an
auto-update template of any kind — the manifest's keys are exactly
the base five plus either url/hash/bin or architecture. -/

/-- C2 counterexample: a concrete successful run produces a manifest
whose complete field list is version, description, homepage,
license, notes, url, hash, bin — no auto-update template per bucket
(in particular no `autoupdate` key). -/
theorem claim2_counterexample :
    generate_manifest [exRelease] exFetch "o/app" none none = Except.ok exManifest ∧
    exManifest.lookup "autoupdate" = none :=
  ⟨by rfl, rfl⟩

/-- C2 amended: a built manifest contains no auto-update URL
template: it has no `autoupdate` key, and its fields are exactly
version, description, homepage, license, notes followed by either
url/hash/bin or a single `architecture` object. -/
theorem claim2_no_autoupdate (releases : List Release) (fetch : String → HttpResponse)
    (repo : String) (an bn : Option String) (rel : Release) (rest : List Release) (m : JVal)
    (hrel : releases = rel :: rest)
    (hok : generate_manifest releases fetch repo an bn = Except.ok m) :
    m.lookup "autoupdate" = none ∧
    ∃ fields, m = JVal.obj fields ∧
      (fields.map Prod.fst = ["version", "description", "homepage", "license", "notes",
        "url", "hash", "bin"] ∨
       fields.map Prod.fst = ["version", "description", "homepage", "license", "notes",
        "architecture"]) := by
  subst hrel
  rw [generate_manifest_cons] at hok
  rcases buildFromAssets_ok _ _ _ _ _ hok with ⟨arch, url, hh, hl, hm⟩ | ⟨entries, hlen, hm, hmap, hrec⟩
  · rw [hm]
    refine ⟨?_, _, rfl, Or.inl ?_⟩
    · simp only [JVal.lookup]
      rw [lookupList_append, lookupBase_autoupdate]
      rfl
    · rw [List.map_append, base_keys]
      rfl
  · rw [hm]
    refine ⟨?_, _, rfl, Or.inr ?_⟩
    · simp only [JVal.lookup]
      rw [lookupList_append, lookupBase_autoupdate]
      rfl
    · rw [List.map_append, base_keys]
      rfl

theorem claim2_witness :
    exManifest.lookup "autoupdate" = none ∧
    ∃ fields, exManifest = JVal.obj fields ∧
      (fields.map Prod.fst = ["version", "description", "homepage", "license", "notes",
        "url", "hash", "bin"] ∨
       fields.map Prod.fst = ["version", "description", "homepage", "license", "notes",
        "architecture"]) :=
  claim2_no_autoupdate [exRelease] exFetch "o/app" none none exRelease [] exManifest rfl (by rfl)

end ManifestGen
